import Mathlib

/-!
# Verification of the RCR payload-jitter analyzer

Shallow embedding of the core of `src/main.py` (the outlier classifier
`identify_outliers_hybrid` and the coverage calculator `calculate_rcr`) and of
the key-access behaviour of `src/utils/html_generator.py`.

Numeric values (numpy float64 byte counts and parameters) are modelled as
exact rationals `ℚ`; fallible numpy calls (`np.histogram` raising
`ValueError`) and Python `KeyError` accesses are modelled with `Except`.
-/

namespace RCRJitter

/-- `np.mean(data)`: arithmetic mean.  For the empty list the real code
produces NaN; all claims assume a non-empty sample. -/
def mean (data : List ℚ) : ℚ := data.sum / (data.length : ℚ)

/-- Population variance (`np.std(data)**2` with `ddof=0`), the square of the
standard deviation used by `scipy.stats.zscore`. -/
def variance (data : List ℚ) : ℚ :=
  ((data.map (fun x => (x - mean data) ^ 2)).sum) / (data.length : ℚ)

/-- The squared z-score of a point, as computed by
`np.abs(stats.zscore(data))`, with `none` modelling the IEEE NaN that
`scipy.stats.zscore` yields from the division `0/0` when the population
standard deviation is zero (constant sample).  We carry the square
`((x-μ)/σ)² = (x-μ)²/σ²` so the value stays rational. -/
def zscoreSq (data : List ℚ) (x : ℚ) : Option ℚ :=
  if variance data = 0 then none
  else some ((x - mean data) ^ 2 / variance data)

/-- The elementwise test `z_scores >= z_threshold` from
`identify_outliers_hybrid` (line `potential_outliers = z_scores >= z_threshold`).
For `σ > 0` and `t > 0`, `|x-μ|/σ ≥ t ↔ (x-μ)² ≥ t²·σ²` (both sides
nonnegative); for `t ≤ 0` the comparison is always true since `|z| ≥ 0`;
for `σ = 0` the z-scores are NaN and every IEEE comparison with NaN is
false. -/
def isCandidate (data : List ℚ) (z_threshold : ℚ) (x : ℚ) : Bool :=
  if variance data = 0 then false
  else if z_threshold ≤ 0 then true
  else decide (z_threshold ^ 2 * variance data ≤ (x - mean data) ^ 2)

/-- Insert a value into an ascending list (helper for `sortAsc`). -/
def insertSorted (x : ℚ) : List ℚ → List ℚ
  | [] => [x]
  | y :: ys => if x ≤ y then x :: y :: ys else y :: insertSorted x ys

/-- `np.sort`: the ascending sorted permutation of a list of rationals
(duplicates retained).  On totally ordered values with duplicates kept, the
sorted permutation is unique, so insertion sort models `np.sort` exactly. -/
def sortAsc (l : List ℚ) : List ℚ := l.foldr insertSorted []

/-- `sorted_data[(sorted_data >= v) & (sorted_data <= v + cluster_width)]`:
the window of candidate values within `cluster_width` above `v`, taken over
the whole sorted candidate array. -/
def windowAt (sorted : List ℚ) (cluster_width : ℚ) (v : ℚ) : List ℚ :=
  sorted.filter (fun x => decide (v ≤ x) && decide (x ≤ v + cluster_width))

/-- `is_outlier[data == point] = False`: set the mask to `False` at every
index of `data` holding exactly the value `point`. -/
def setOutlierFalse (data : List ℚ) (point : ℚ) (m : List Bool) : List Bool :=
  (data.zip m).map (fun p => if p.1 = point then false else p.2)

/-- The `while i < len(sorted_data)` cluster-rescue loop of
`identify_outliers_hybrid`, acting on the `is_outlier` mask `m`.
`fuel` bounds the number of iterations; with `min_cluster_size ≥ 1` the
cursor `i` advances by at least 1 per iteration, so `fuel = sorted.length`
(with `i` starting at 0) reproduces the Python loop exactly.  (For
`min_cluster_size = 0` together with `cluster_width < 0` the Python loop
would not terminate; the spec's preconditions exclude those parameters.) -/
def rescueLoop (data sorted : List ℚ) (min_cluster_size : ℕ) (cluster_width : ℚ) :
    ℕ → ℕ → List Bool → List Bool
  | 0, _, m => m
  | fuel + 1, i, m =>
    if h : i < sorted.length then
      let cluster_points := windowAt sorted cluster_width (sorted.get ⟨i, h⟩)
      if min_cluster_size ≤ cluster_points.length then
        rescueLoop data sorted min_cluster_size cluster_width fuel
          (i + cluster_points.length)
          (cluster_points.foldl (fun m point => setOutlierFalse data point m) m)
      else
        rescueLoop data sorted min_cluster_size cluster_width fuel (i + 1) m
    else m

/-- The multiset of values rescued by the cluster-rescue loop: the
concatenation of every window that passed the
`len(cluster_points) >= min_cluster_size` test, following the same cursor
trajectory as `rescueLoop`. -/
def sweepRescued (sorted : List ℚ) (min_cluster_size : ℕ) (cluster_width : ℚ) :
    ℕ → ℕ → List ℚ
  | 0, _ => []
  | fuel + 1, i =>
    if h : i < sorted.length then
      let cluster_points := windowAt sorted cluster_width (sorted.get ⟨i, h⟩)
      if min_cluster_size ≤ cluster_points.length then
        cluster_points ++
          sweepRescued sorted min_cluster_size cluster_width fuel
            (i + cluster_points.length)
      else
        sweepRescued sorted min_cluster_size cluster_width fuel (i + 1)
    else []

/-- The trace of cursor positions visited by the cluster-rescue loop
(the successive values of `i` at which the window test is evaluated). -/
def sweepVisited (sorted : List ℚ) (min_cluster_size : ℕ) (cluster_width : ℚ) :
    ℕ → ℕ → List ℕ
  | 0, _ => []
  | fuel + 1, i =>
    if h : i < sorted.length then
      let cluster_points := windowAt sorted cluster_width (sorted.get ⟨i, h⟩)
      if min_cluster_size ≤ cluster_points.length then
        i :: sweepVisited sorted min_cluster_size cluster_width fuel
          (i + cluster_points.length)
      else
        i :: sweepVisited sorted min_cluster_size cluster_width fuel (i + 1)
    else []

/-- `np.sort(data[potential_outliers])`: the ascending list of candidate
outlier values. -/
def candidateValues (data : List ℚ) (z_threshold : ℚ) : List ℚ :=
  sortAsc (data.filter (isCandidate data z_threshold))

/-- All values rescued over the whole sweep (cursor starting at 0 with full
fuel, matching the `while` loop). -/
def rescuedValues (data : List ℚ) (z_threshold : ℚ) (min_cluster_size : ℕ)
    (cluster_width : ℚ) : List ℚ :=
  sweepRescued (candidateValues data z_threshold) min_cluster_size cluster_width
    (candidateValues data z_threshold).length 0

/-- Value-level characterisation of the final `is_outlier` entry for a point
of value `x`: a candidate that was never rescued. -/
def isOutlierVal (data : List ℚ) (z_threshold : ℚ) (min_cluster_size : ℕ)
    (cluster_width : ℚ) (x : ℚ) : Bool :=
  isCandidate data z_threshold x &&
    !(decide (x ∈ rescuedValues data z_threshold min_cluster_size cluster_width))

/-- Boolean-mask indexing `data[m]`: the values of `data` at the `true`
positions of `m`. -/
def maskedData (data : List ℚ) (m : List Bool) : List ℚ :=
  (data.zip m).filterMap (fun p => if p.2 then some p.1 else none)

/-- `np.min` over a non-empty list (`0` for the empty list, which the real
code never reaches: `np.min([])` raises). -/
def listMin : List ℚ → ℚ
  | [] => 0
  | x :: xs => xs.foldl min x

/-- `np.max` over a non-empty list. -/
def listMax : List ℚ → ℚ
  | [] => 0
  | x :: xs => xs.foldl max x

/-- `identify_outliers_hybrid(data, z_threshold, min_cluster_size,
cluster_width)` from `src/main.py`: z-score candidate marking followed by the
cluster-rescue sweep; returns `(~is_outlier, valid_range)` where the mask is
`true` for points kept as normal. -/
def identify_outliers_hybrid (data : List ℚ) (z_threshold : ℚ)
    (min_cluster_size : ℕ) (cluster_width : ℚ) : List Bool × ℚ × ℚ :=
  let potential_outliers := data.map (isCandidate data z_threshold)
  let sorted_data := candidateValues data z_threshold
  let is_outlier :=
    if 0 < potential_outliers.count true then
      rescueLoop data sorted_data min_cluster_size cluster_width
        sorted_data.length 0 potential_outliers
    else potential_outliers
  let non_outlier := is_outlier.map (fun b => !b)
  let valid_data := maskedData data non_outlier
  let valid_range :=
    if 0 < valid_data.length then (listMin valid_data, listMax valid_data)
    else (listMin data, listMax data)
  (non_outlier, valid_range)

/-- The list of sample points whose final mask entry is "normal"
(`data[~is_outlier]`): value-level form used to state range and histogram
facts. -/
def validData (data : List ℚ) (z_threshold : ℚ) (min_cluster_size : ℕ)
    (cluster_width : ℚ) : List ℚ :=
  data.filter (fun x => !(isOutlierVal data z_threshold min_cluster_size cluster_width x))

/-- The record returned by `calculate_rcr` (the `RCRResult` TypedDict). -/
structure RCRResult where
  rcr : ℚ
  original_range : ℚ × ℚ
  adjusted_range : ℚ × ℚ
  total_buckets : ℕ
  filled_buckets : ℕ
  removed_outlier_count : ℕ
  outlier_mask : List Bool
  data : List ℚ
deriving DecidableEq, Repr

/-- Membership of `x` in bucket `k` of the `n` equal-width buckets that
`np.histogram(·, bins=n, range=(a, b))` lays over `[a, b]`: buckets are
left-closed/right-open except the last, which is right-closed. -/
def inBin (a b : ℚ) (n k : ℕ) (x : ℚ) : Bool :=
  let lo := a + (k : ℚ) * (b - a) / (n : ℚ)
  let hi := a + ((k : ℚ) + 1) * (b - a) / (n : ℚ)
  if k + 1 = n then decide (lo ≤ x) && decide (x ≤ hi)
  else decide (lo ≤ x) && decide (x < hi)

/-- The count of `vals` falling in bucket `k` (values outside `[a, b]` are
not counted, matching `np.histogram`'s `range` argument). -/
def binCount (vals : List ℚ) (a b : ℚ) (n k : ℕ) : ℕ :=
  (vals.filter (fun x => inBin a b n k x)).length

/-- `np.histogram(vals, bins=n, range=(a, b))`: the list of per-bucket
counts. -/
def histogram (vals : List ℚ) (n : ℕ) (a b : ℚ) : List ℕ :=
  (List.range n).map (binCount vals a b n)

/-- `calculate_rcr` from `src/main.py`.  `Except.error` models the
`ValueError` that `np.histogram` raises when its integer `bins` argument is
smaller than 1 — which is exactly what `int(np.ceil((adjusted_max -
adjusted_min) / bucket_size))` produces when the adjusted range has zero
width. -/
def calculate_rcr (data : List ℚ) (z_threshold : ℚ) (min_cluster_size : ℕ)
    (cluster_width bucket_size : ℚ) (min_bucket_count : ℕ) :
    Except String RCRResult :=
  let original_min := listMin data
  let original_max := listMax data
  let r := identify_outliers_hybrid data z_threshold min_cluster_size cluster_width
  let non_outlier_mask := r.1
  let adjusted_min := r.2.1
  let adjusted_max := r.2.2
  let total_adjusted_buckets : ℤ :=
    Int.ceil ((adjusted_max - adjusted_min) / bucket_size)
  if total_adjusted_buckets < 1 then
    Except.error "ValueError: bins must be positive, when an integer"
  else
    let n := total_adjusted_buckets.toNat
    let valid := maskedData data non_outlier_mask
    let adjusted_hist := histogram valid n adjusted_min adjusted_max
    let filled_buckets :=
      (adjusted_hist.filter (fun c => min_bucket_count ≤ c)).length
    let rcr : ℚ :=
      if 0 < n then ((filled_buckets : ℚ) / (n : ℚ)) * 100 else 0
    Except.ok
      { rcr := rcr
        original_range := (original_min, original_max)
        adjusted_range := (adjusted_min, adjusted_max)
        total_buckets := n
        filled_buckets := filled_buckets
        removed_outlier_count := non_outlier_mask.count false
        outlier_mask := non_outlier_mask
        data := data }

/-! ## Model of the report generator's dictionary accesses

`main` merges the extractor's per-dataset dict (`LogFileResult`) with the
dict returned by `calculate_rcr` (`result.update(rcr_result)`) and hands the
list to `generate_html_report`, whose summary-table f-string reads
`result['log_file']`, `result['ip']`, `result['label']`, `result['mrcr']`,
`result['removed_outlier_count']`, `len(result['data'])`.  Python dict
lookups that miss raise `KeyError`, modelled with `Except.error`. -/

/-- A Python value stored in a result dict. -/
inductive PyVal where
  | str : String → PyVal
  | rat : ℚ → PyVal
  | nat : ℕ → PyVal
  | pair : ℚ × ℚ → PyVal
  | boolList : List Bool → PyVal
  | ratList : List ℚ → PyVal
deriving DecidableEq

/-- A Python dict with string keys (first binding wins on lookup). -/
abbrev PyDict := List (String × PyVal)

/-- `d[k]`: dict lookup, raising `KeyError` when the key is absent. -/
def dictGet (d : PyDict) (k : String) : Except String PyVal :=
  match d.find? (fun p => p.1 == k) with
  | some p => Except.ok p.2
  | none => Except.error ("KeyError: " ++ k)

/-- `d.update(other)`: bindings of `other` replace or extend those of `d`
(lookup-equivalent ordering). -/
def dictUpdate (d other : PyDict) : PyDict :=
  d.filter (fun p => !((other.map Prod.fst).contains p.1)) ++ other

/-- The per-dataset dict built by `process_log_file` (the `LogFileResult`
TypedDict). -/
def logFileResultDict (ip label log_file : String) (data : List ℚ) : PyDict :=
  [("ip", PyVal.str ip), ("label", PyVal.str label),
   ("log_file", PyVal.str log_file), ("data", PyVal.ratList data)]

/-- The dict literal returned by `calculate_rcr` — note its score key is
`"rcr"`. -/
def rcrResultDict (r : RCRResult) : PyDict :=
  [("rcr", PyVal.rat r.rcr),
   ("original_range", PyVal.pair r.original_range),
   ("adjusted_range", PyVal.pair r.adjusted_range),
   ("total_buckets", PyVal.nat r.total_buckets),
   ("filled_buckets", PyVal.nat r.filled_buckets),
   ("removed_outlier_count", PyVal.nat r.removed_outlier_count),
   ("outlier_mask", PyVal.boolList r.outlier_mask),
   ("data", PyVal.ratList r.data)]

/-- Extract a string value (`TypeError` surrogate otherwise). -/
def asStr : PyVal → Except String String
  | PyVal.str s => Except.ok s
  | _ => Except.error "TypeError"

/-- Extract a rational value. -/
def asRat : PyVal → Except String ℚ
  | PyVal.rat q => Except.ok q
  | _ => Except.error "TypeError"

/-- Extract a natural value. -/
def asNat : PyVal → Except String ℕ
  | PyVal.nat n => Except.ok n
  | _ => Except.error "TypeError"

/-- Extract a list-of-rationals value. -/
def asRatList : PyVal → Except String (List ℚ)
  | PyVal.ratList l => Except.ok l
  | _ => Except.error "TypeError"

/-- One row of the report's summary table: file, IP, label, score,
outliers-removed, total sample size. -/
structure SummaryRow where
  log_file : String
  ip : String
  label : String
  score : ℚ
  outliers_removed : ℕ
  total_connections : ℕ
deriving DecidableEq

/-- The summary-table row for one result dict, performing the dict accesses
of `generate_html_report`'s `summary_rows` f-string in source order; in
particular the score is read from key `"mrcr"`. -/
def summaryRowOf (result : PyDict) : Except String SummaryRow := do
  let lf ← dictGet result "log_file" >>= asStr
  let ipv ← dictGet result "ip" >>= asStr
  let lab ← dictGet result "label" >>= asStr
  let score ← dictGet result "mrcr" >>= asRat
  let roc ← dictGet result "removed_outlier_count" >>= asNat
  let dat ← dictGet result "data" >>= asRatList
  Except.ok (SummaryRow.mk lf ipv lab score roc dat.length)

/-- The summary-table portion of `generate_html_report`: one row per result,
first raised `KeyError` propagating (the detail sections read the same
`'mrcr'` key again). -/
def generate_html_report : List PyDict → Except String (List SummaryRow)
  | [] => Except.ok []
  | d :: ds => do
    let row ← summaryRowOf d
    let rows ← generate_html_report ds
    Except.ok (row :: rows)

/-- The per-dataset pipeline of `main`: run `calculate_rcr` on the extracted
sample and merge its dict into the `LogFileResult` dict
(`result.update(rcr_result)`). -/
def processDataset (ip label log_file : String) (data : List ℚ)
    (z_threshold : ℚ) (min_cluster_size : ℕ) (cluster_width bucket_size : ℚ)
    (min_bucket_count : ℕ) : Except String PyDict :=
  (calculate_rcr data z_threshold min_cluster_size cluster_width bucket_size
      min_bucket_count).map
    (fun r => dictUpdate (logFileResultDict ip label log_file data) (rcrResultDict r))

/-- A concrete `calculate_rcr` output used to witness the bounds below. -/
def resultA : RCRResult :=
  RCRResult.mk 100 (1, 3) (1, 3) 2 2 0 [true, true, true] [1, 2, 3]

end RCRJitter

deriving instance DecidableEq for Except

attribute [local semireducible] Rat.add Rat.mul Rat.inv Rat.sub

set_option maxRecDepth 8000

namespace RCRJitter

/-! ## Characterisation of the rescue loop -/

theorem setOutlierFalse_map (data : List ℚ) (p : ℚ) (g : ℚ → Bool) :
    setOutlierFalse data p (data.map g)
      = data.map (fun x => if x = p then false else g x) := by
  induction data with
  | nil => rfl
  | cons d ds ih => simpa [setOutlierFalse, List.zip_cons_cons] using ih

theorem foldl_setOutlierFalse (data : List ℚ) :
    ∀ (R : List ℚ) (g : ℚ → Bool),
      R.foldl (fun m point => setOutlierFalse data point m) (data.map g)
        = data.map (fun x => if x ∈ R then false else g x) := by
  intro R
  induction R with
  | nil => intro g; simp
  | cons p R ih =>
    intro g
    rw [List.foldl_cons, setOutlierFalse_map, ih]
    apply List.map_congr_left
    intro x _
    by_cases h1 : x ∈ R <;> by_cases h2 : x = p <;>
      simp [h1, h2, Bool.and_comm, Bool.and_left_comm, Bool.and_assoc]

theorem rescueLoop_map (data sorted : List ℚ) (mcs : ℕ) (w : ℚ) :
    ∀ (fuel i : ℕ) (g : ℚ → Bool),
      rescueLoop data sorted mcs w fuel i (data.map g)
        = data.map
            (fun x => if x ∈ sweepRescued sorted mcs w fuel i then false else g x) := by
  intro fuel
  induction fuel with
  | zero => intro i g; simp [rescueLoop, sweepRescued]
  | succ fuel ih =>
    intro i g
    by_cases h : i < sorted.length
    · rw [rescueLoop, sweepRescued, dif_pos h, dif_pos h]
      by_cases hb : mcs ≤ (windowAt sorted w (sorted.get ⟨i, h⟩)).length
      · rw [if_pos hb, if_pos hb, foldl_setOutlierFalse, ih]
        apply List.map_congr_left
        intro x _
        by_cases h1 : x ∈ windowAt sorted w (sorted.get ⟨i, h⟩) <;>
          by_cases h2 : x ∈ sweepRescued sorted mcs w fuel
            (i + (windowAt sorted w (sorted.get ⟨i, h⟩)).length) <;>
          simp [h1, h2, Bool.and_comm, Bool.and_left_comm, Bool.and_assoc]
      · rw [if_neg hb, if_neg hb, ih]
    · rw [rescueLoop, sweepRescued, dif_neg h, dif_neg h]
      simp

theorem count_true_eq_length_filter (data : List ℚ) (f : ℚ → Bool) :
    (data.map f).count true = (data.filter f).length := by
  induction data with
  | nil => rfl
  | cons d ds ih =>
    by_cases h : f d <;> simp [List.count_cons, List.filter_cons, h, ih]

theorem maskedData_map (data : List ℚ) (f : ℚ → Bool) :
    maskedData data (data.map f) = data.filter f := by
  induction data with
  | nil => rfl
  | cons d ds ih =>
    by_cases h : f d <;> simp [maskedData, List.filter_cons, h, ih, List.filterMap_cons] <;>
      simpa [maskedData] using ih

/-- Main characterisation: the returned mask of `identify_outliers_hybrid`
is the pointwise value test `!(isOutlierVal ·)`, and the returned range is
min/max over `validData` with fallback to the full sample. -/
theorem identify_eq (data : List ℚ) (t : ℚ) (mcs : ℕ) (w : ℚ) :
    identify_outliers_hybrid data t mcs w
      = (data.map (fun x => !(isOutlierVal data t mcs w x)),
         if 0 < (validData data t mcs w).length
         then (listMin (validData data t mcs w), listMax (validData data t mcs w))
         else (listMin data, listMax data)) := by
  have key :
      (if 0 < (data.map (isCandidate data t)).count true then
          rescueLoop data (candidateValues data t) mcs w
            (candidateValues data t).length 0 (data.map (isCandidate data t))
        else data.map (isCandidate data t))
        = data.map (isOutlierVal data t mcs w) := by
    by_cases hc : 0 < (data.map (isCandidate data t)).count true
    · rw [if_pos hc, rescueLoop_map]
      apply List.map_congr_left
      intro x _
      by_cases h1 : x ∈ rescuedValues data t mcs w <;>
        simp [isOutlierVal, rescuedValues, h1, Bool.and_comm]
    · rw [if_neg hc]
      have hfilter : data.filter (isCandidate data t) = [] := by
        rw [count_true_eq_length_filter] at hc
        exact List.length_eq_zero.mp (Nat.eq_zero_of_not_pos hc)
      have hrescued : rescuedValues data t mcs w = [] := by
        unfold rescuedValues candidateValues
        rw [hfilter]
        rfl
      apply List.map_congr_left
      intro x _
      simp [isOutlierVal, hrescued]
  simp only [identify_outliers_hybrid]
  rw [key, List.map_map, maskedData_map]
  rfl

theorem mask_eq (data : List ℚ) (t : ℚ) (mcs : ℕ) (w : ℚ) :
    (identify_outliers_hybrid data t mcs w).1
      = data.map (fun x => !(isOutlierVal data t mcs w x)) := by
  rw [identify_eq]

theorem range_eq (data : List ℚ) (t : ℚ) (mcs : ℕ) (w : ℚ) :
    (identify_outliers_hybrid data t mcs w).2
      = if 0 < (validData data t mcs w).length
        then (listMin (validData data t mcs w), listMax (validData data t mcs w))
        else (listMin data, listMax data) := by
  rw [identify_eq]

theorem identify_mask_length (data : List ℚ) (t : ℚ) (mcs : ℕ) (w : ℚ) :
    (identify_outliers_hybrid data t mcs w).1.length = data.length := by
  rw [mask_eq, List.length_map]

/-! ## Minimum and maximum of a list -/

theorem foldl_min_le_init (l : List ℚ) : ∀ a : ℚ, l.foldl min a ≤ a := by
  induction l with
  | nil => intro a; exact le_refl a
  | cons x xs ih =>
    intro a
    calc (x :: xs).foldl min a = xs.foldl min (min a x) := by rw [List.foldl_cons]
    _ ≤ min a x := ih (min a x)
    _ ≤ a := min_le_left a x

theorem foldl_min_le_mem (l : List ℚ) :
    ∀ (a x : ℚ), x ∈ l → l.foldl min a ≤ x := by
  induction l with
  | nil => intro a x hx; cases hx
  | cons y ys ih =>
    intro a x hx
    rcases List.mem_cons.mp hx with rfl | hx'
    · calc (x :: ys).foldl min a = ys.foldl min (min a x) := by rw [List.foldl_cons]
      _ ≤ min a x := foldl_min_le_init ys (min a x)
      _ ≤ x := min_le_right a x
    · exact ih (min a y) x hx'

theorem foldl_min_mem (l : List ℚ) :
    ∀ a : ℚ, l.foldl min a = a ∨ l.foldl min a ∈ l := by
  induction l with
  | nil => intro a; exact Or.inl rfl
  | cons y ys ih =>
    intro a
    rw [List.foldl_cons]
    rcases ih (min a y) with h | h
    · rw [h]
      rcases min_cases a y with ⟨h1, _⟩ | ⟨h1, _⟩
      · exact Or.inl h1
      · exact Or.inr (by rw [h1]; exact List.mem_cons_self y ys)
    · exact Or.inr (List.mem_cons_of_mem y h)

theorem listMin_le_mem {l : List ℚ} {x : ℚ} (hx : x ∈ l) : listMin l ≤ x := by
  cases l with
  | nil => cases hx
  | cons y ys =>
    rcases List.mem_cons.mp hx with rfl | hx'
    · exact foldl_min_le_init ys x
    · exact foldl_min_le_mem ys y x hx'

theorem listMin_mem {l : List ℚ} (hl : l ≠ []) : listMin l ∈ l := by
  cases l with
  | nil => exact absurd rfl hl
  | cons y ys =>
    rcases foldl_min_mem ys y with h | h
    · rw [listMin, h]; exact List.mem_cons_self y ys
    · exact List.mem_cons_of_mem y h

theorem foldl_max_le_init (l : List ℚ) : ∀ a : ℚ, a ≤ l.foldl max a := by
  induction l with
  | nil => intro a; exact le_refl a
  | cons x xs ih =>
    intro a
    calc a ≤ max a x := le_max_left a x
    _ ≤ xs.foldl max (max a x) := ih (max a x)
    _ = (x :: xs).foldl max a := by rw [List.foldl_cons]

theorem foldl_max_le_mem (l : List ℚ) :
    ∀ (a x : ℚ), x ∈ l → x ≤ l.foldl max a := by
  induction l with
  | nil => intro a x hx; cases hx
  | cons y ys ih =>
    intro a x hx
    rcases List.mem_cons.mp hx with rfl | hx'
    · calc x ≤ max a x := le_max_right a x
      _ ≤ ys.foldl max (max a x) := foldl_max_le_init ys (max a x)
      _ = (x :: ys).foldl max a := by rw [List.foldl_cons]
    · exact ih (max a y) x hx'

theorem foldl_max_mem (l : List ℚ) :
    ∀ a : ℚ, l.foldl max a = a ∨ l.foldl max a ∈ l := by
  induction l with
  | nil => intro a; exact Or.inl rfl
  | cons y ys ih =>
    intro a
    rw [List.foldl_cons]
    rcases ih (max a y) with h | h
    · rw [h]
      rcases max_cases a y with ⟨h1, _⟩ | ⟨h1, _⟩
      · exact Or.inl h1
      · exact Or.inr (by rw [h1]; exact List.mem_cons_self y ys)
    · exact Or.inr (List.mem_cons_of_mem y h)

theorem le_listMax_mem {l : List ℚ} {x : ℚ} (hx : x ∈ l) : x ≤ listMax l := by
  cases l with
  | nil => cases hx
  | cons y ys =>
    rcases List.mem_cons.mp hx with rfl | hx'
    · exact foldl_max_le_init ys x
    · exact foldl_max_le_mem ys y x hx'

theorem listMax_mem {l : List ℚ} (hl : l ≠ []) : listMax l ∈ l := by
  cases l with
  | nil => exact absurd rfl hl
  | cons y ys =>
    rcases foldl_max_mem ys y with h | h
    · rw [listMax, h]; exact List.mem_cons_self y ys
    · exact List.mem_cons_of_mem y h

/-! ## The rescue sweep rescues every value of a sufficiently large window -/

theorem visited_window_subset_rescued (sorted : List ℚ) (mcs : ℕ) (w : ℚ) :
    ∀ (fuel i k : ℕ), k ∈ sweepVisited sorted mcs w fuel i →
      ∀ hk : k < sorted.length,
        mcs ≤ (windowAt sorted w (sorted.get ⟨k, hk⟩)).length →
        ∀ x ∈ windowAt sorted w (sorted.get ⟨k, hk⟩),
          x ∈ sweepRescued sorted mcs w fuel i := by
  intro fuel
  induction fuel with
  | zero =>
    intro i k hkmem
    simp [sweepVisited] at hkmem
  | succ fuel ih =>
    intro i k hkmem hk hbig x hx
    by_cases h : i < sorted.length
    · rw [sweepVisited, dif_pos h] at hkmem
      rw [sweepRescued, dif_pos h]
      by_cases hb : mcs ≤ (windowAt sorted w (sorted.get ⟨i, h⟩)).length
      · rw [if_pos hb] at hkmem
        rw [if_pos hb]
        rcases List.mem_cons.mp hkmem with rfl | hmem
        · exact List.mem_append_left _ hx
        · exact List.mem_append_right _ (ih _ k hmem hk hbig x hx)
      · rw [if_neg hb] at hkmem
        rw [if_neg hb]
        rcases List.mem_cons.mp hkmem with rfl | hmem
        · exact absurd hbig hb
        · exact ih _ k hmem hk hbig x hx
    · rw [sweepVisited, dif_neg h] at hkmem
      cases hkmem

/-! ## The np.histogram buckets partition the adjusted range -/

theorem sum_map_add {β : Type} (l : List β) (f g : β → ℕ) :
    (l.map (fun k => f k + g k)).sum = (l.map f).sum + (l.map g).sum := by
  induction l with
  | nil => rfl
  | cons p l ih =>
    simp only [List.map_cons, List.sum_cons, ih]
    omega

theorem sum_map_ite {β : Type} (l : List β) (p : β → Bool) :
    (l.map (fun k => if p k then 1 else 0)).sum = (l.filter p).length := by
  induction l with
  | nil => rfl
  | cons q l ih =>
    by_cases h : p q <;> simp [List.filter_cons, h, ih] <;> omega

theorem filter_eq_singleton {l : List ℕ} {p : ℕ → Bool} {k : ℕ} (hnd : l.Nodup)
    (hm : k ∈ l) (hpk : p k = true) (huniq : ∀ j ∈ l, p j = true → j = k) :
    l.filter p = [k] := by
  induction l with
  | nil => cases hm
  | cons q l ih =>
    have hnd1 := List.nodup_cons.mp hnd
    rcases List.mem_cons.mp hm with rfl | hm'
    · rw [List.filter_cons_of_pos hpk]
      have : l.filter p = [] := by
        rw [List.filter_eq_nil]
        intro b hb hpb
        exact absurd (huniq b (List.mem_cons_of_mem k hb) hpb ▸ hb) hnd1.1
      rw [this]
    · have hpq : ¬(p q = true) := by
        intro hpq
        exact absurd ((huniq q (List.mem_cons_self q l) hpq) ▸ hm') hnd1.1
      rw [List.filter_cons_of_neg hpq]
      exact ih hnd1.2 hm' (fun j hj => huniq j (List.mem_cons_of_mem q hj))

theorem edge_le_of_mul_le {a b x : ℚ} {n : ℕ} (hn : (0:ℚ) < (n : ℚ)) (C : ℚ)
    (h : C * (b - a) ≤ (x - a) * (n : ℚ)) : a + C * (b - a) / (n : ℚ) ≤ x := by
  have h2 : C * (b - a) / (n : ℚ) ≤ x - a := (div_le_iff hn).mpr h
  linarith

theorem lt_edge_of_mul_lt {a b x : ℚ} {n : ℕ} (hn : (0:ℚ) < (n : ℚ)) (C : ℚ)
    (h : (x - a) * (n : ℚ) < C * (b - a)) : x < a + C * (b - a) / (n : ℚ) := by
  have h2 : x - a < C * (b - a) / (n : ℚ) := (lt_div_iff hn).mpr h
  linarith

theorem not_inBin_of_lt {a b x : ℚ} {n k j : ℕ} (ha : a < b)
    (hkj : k < j) (hjn : j < n) (hbk : inBin a b n k x = true) :
    inBin a b n j x = false := by
  have hn : 0 < n := lt_of_le_of_lt (Nat.zero_le j) hjn
  have hnq : (0:ℚ) < (n : ℚ) := by exact_mod_cast hn
  have hba : (0:ℚ) < b - a := by linarith
  have hkn : ¬(k + 1 = n) := by omega
  rw [inBin, if_neg hkn, Bool.and_eq_true, decide_eq_true_eq, decide_eq_true_eq] at hbk
  have hk1 : x < a + ((k:ℚ) + 1) * (b - a) / (n : ℚ) := hbk.2
  have hc1 : ((k:ℚ) + 1) ≤ (j:ℚ) := by exact_mod_cast Nat.succ_le_of_lt hkj
  have hmono : ((k:ℚ) + 1) * (b - a) / (n : ℚ) ≤ (j:ℚ) * (b - a) / (n : ℚ) :=
    (div_le_div_right hnq).mpr (mul_le_mul_of_nonneg_right hc1 hba.le)
  have hnle : ¬(a + (j:ℚ) * (b - a) / (n : ℚ) ≤ x) := by linarith
  rw [inBin]
  have hd : decide (a + (j:ℚ) * (b - a) / (n : ℚ) ≤ x) = false := decide_eq_false hnle
  split <;> rw [hd, Bool.false_and]

theorem bin_unique {a b x : ℚ} {n k j : ℕ} (ha : a < b) (hk : k < n) (hj : j < n)
    (h1 : inBin a b n k x = true) (h2 : inBin a b n j x = true) : k = j := by
  rcases Nat.lt_trichotomy k j with h | h | h
  · rw [not_inBin_of_lt ha h hj h1] at h2
    cases h2
  · exact h
  · rw [not_inBin_of_lt ha h hk h2] at h1
    cases h1

theorem inBin_last {a b : ℚ} {n : ℕ} (ha : a < b) (hn : 0 < n) :
    inBin a b n (n - 1) b = true := by
  have hnq : (0:ℚ) < (n : ℚ) := by exact_mod_cast hn
  have hba : (0:ℚ) < b - a := by linarith
  have hlast : (n - 1) + 1 = n := by omega
  have hcast : (((n - 1 : ℕ)) : ℚ) = (n : ℚ) - 1 := by
    have h1 : (1:ℕ) ≤ n := hn
    push_cast [h1]
    ring
  rw [inBin, if_pos hlast, Bool.and_eq_true, decide_eq_true_eq, decide_eq_true_eq]
  constructor
  · apply edge_le_of_mul_le hnq
    rw [hcast]
    nlinarith
  · rw [hcast]
    have hsum : ((n:ℚ) - 1 + 1) = (n : ℚ) := by ring
    rw [hsum]
    have hcancel : (n:ℚ) * (b - a) / (n:ℚ) = b - a :=
      mul_div_cancel_left₀ (b - a) (ne_of_gt hnq)
    rw [hcancel]
    linarith

theorem inBin_b_of_ne_last {a b : ℚ} {n k : ℕ} (ha : a < b) (hk : k + 1 < n) :
    inBin a b n k b = false := by
  have hnq : (0:ℚ) < (n : ℚ) := by exact_mod_cast (by omega : 0 < n)
  have hba : (0:ℚ) < b - a := by linarith
  have hc1 : ((k:ℚ) + 1) ≤ (n:ℚ) := by exact_mod_cast Nat.le_of_lt hk
  have hhi : a + ((k:ℚ) + 1) * (b - a) / (n : ℚ) ≤ b := by
    apply edge_le_of_mul_le hnq
    nlinarith
  rw [inBin, if_neg (by omega : ¬(k + 1 = n))]
  have hd : decide (b < a + ((k:ℚ) + 1) * (b - a) / (n : ℚ)) = false :=
    decide_eq_false (not_lt.mpr hhi)
  rw [hd, Bool.and_false]

theorem exists_bin {a b x : ℚ} {n : ℕ} (ha : a < b) (hn : 0 < n)
    (h1 : a ≤ x) (h2 : x ≤ b) : ∃ k, k < n ∧ inBin a b n k x = true := by
  have hnq : (0:ℚ) < (n : ℚ) := by exact_mod_cast hn
  have hba : (0:ℚ) < b - a := by linarith
  by_cases hxb : x = b
  · refine ⟨n - 1, by omega, ?_⟩
    rw [hxb]
    exact inBin_last ha hn
  · have hxlt : x < b := lt_of_le_of_ne h2 hxb
    set q : ℚ := (x - a) * (n : ℚ) / (b - a) with hq
    have hq0 : 0 ≤ q := div_nonneg (mul_nonneg (by linarith) hnq.le) hba.le
    have hfl0 : 0 ≤ Int.floor q := Int.floor_nonneg.mpr hq0
    set k : ℕ := (Int.floor q).toNat with hkdef
    have hcast : ((k : ℕ) : ℚ) = ((Int.floor q : ℤ) : ℚ) := by
      rw [hkdef]
      exact_mod_cast congrArg (fun z : ℤ => (z : ℚ)) (Int.toNat_of_nonneg hfl0)
    have hqlt : q < (n : ℚ) := by
      rw [hq, div_lt_iff hba]
      nlinarith
    have hkn : k < n := by
      have : Int.floor q < (n : ℤ) := Int.floor_lt.mpr (by exact_mod_cast hqlt)
      omega
    have hmul : q * (b - a) = (x - a) * (n : ℚ) :=
      div_mul_cancel₀ ((x - a) * (n : ℚ)) (ne_of_gt hba)
    have hlo : a + (k : ℚ) * (b - a) / (n : ℚ) ≤ x := by
      apply edge_le_of_mul_le hnq
      have h5 : ((k : ℕ) : ℚ) ≤ q := hcast ▸ Int.floor_le q
      nlinarith
    have hhi : x < a + ((k : ℚ) + 1) * (b - a) / (n : ℚ) := by
      apply lt_edge_of_mul_lt hnq
      have h6 : q < ((k : ℕ) : ℚ) + 1 := by
        rw [hcast]
        exact_mod_cast Int.lt_floor_add_one q
      nlinarith
    refine ⟨k, hkn, ?_⟩
    rw [inBin]
    by_cases hklast : k + 1 = n
    · rw [if_pos hklast, Bool.and_eq_true, decide_eq_true_eq, decide_eq_true_eq]
      exact ⟨hlo, le_of_lt hhi⟩
    · rw [if_neg hklast, Bool.and_eq_true, decide_eq_true_eq, decide_eq_true_eq]
      exact ⟨hlo, hhi⟩

theorem histogram_sum (vals : List ℚ) (a b : ℚ) (n : ℕ) (ha : a < b) (hn : 0 < n)
    (hin : ∀ x ∈ vals, a ≤ x ∧ x ≤ b) :
    (histogram vals n a b).sum = vals.length := by
  induction vals with
  | nil =>
    rw [List.length_nil, List.sum_eq_zero]
    intro y hy
    rcases List.mem_map.mp hy with ⟨k, _, rfl⟩
    rfl
  | cons v vs ih =>
    have hv := hin v (List.mem_cons_self v vs)
    obtain ⟨k₀, hk₀n, hk₀⟩ := exists_bin ha hn hv.1 hv.2
    have step : (List.range n).map (binCount (v :: vs) a b n)
        = (List.range n).map
            (fun k => (if inBin a b n k v then 1 else 0) + binCount vs a b n k) := by
      congr 1
      funext k
      rw [binCount, List.filter_cons]
      by_cases h : inBin a b n k v <;> simp [h, binCount] <;> omega
    rw [histogram, step, sum_map_add, sum_map_ite]
    have huniq : (List.range n).filter (fun k => inBin a b n k v) = [k₀] :=
      filter_eq_singleton (List.nodup_range n) (List.mem_range.mpr hk₀n) hk₀
        (fun j hj hpj => bin_unique ha (List.mem_range.mp hj) hk₀n hpj hk₀)
    rw [huniq]
    have hvs := ih (fun x hx => hin x (List.mem_cons_of_mem v hx))
    rw [histogram] at hvs
    rw [hvs]
    simp only [List.length_cons, List.length_nil]
    omega

theorem map_eq_replicate_true {l : List ℚ} {f : ℚ → Bool}
    (h : ∀ x ∈ l, f x = true) : l.map f = List.replicate l.length true := by
  induction l with
  | nil => rfl
  | cons d ds ih =>
    rw [List.map_cons, List.length_cons, List.replicate_succ,
      h d (List.mem_cons_self d ds), ih (fun x hx => h x (List.mem_cons_of_mem d hx))]

/-! ## Claims -/

/-- C1: the spec requires a zero-width adjusted range to be handled by
returning `total_buckets = 0` and `RCR = 0` without error; the code instead
reaches `np.histogram(..., bins=0, ...)`, which raises `ValueError`, on the
spec's own Scenario-B input (ten `10`s and a lone `1000` outlier,
`z_threshold=1`, `min_cluster_size=2`, `bucket_size=1`).  The guard
`if total_adjusted_buckets > 0 else 0` on the RCR line is unreachable for
this case. -/
theorem C1_zero_width_range_raises :
    calculate_rcr [(10:ℚ), 10, 10, 10, 10, 10, 10, 10, 10, 10, 1000] 1 2 10 1 1
      = Except.error "ValueError: bins must be positive, when an integer" := by
  decide

/-- C2: the spec requires the report's summary table to contain each
successful dataset's RCR percentage; but `generate_html_report` reads
`result['mrcr']` while `calculate_rcr` stores the score under key `'rcr'`,
so report generation raises `KeyError: 'mrcr'` for every run with at least
one dataset and `results.html` is never written. -/
theorem C2_report_mrcr_keyerror :
    ((processDataset "10.0.0.2" "workstation" "conn.log" [1, 2, 3] 3 2 1 1 1).bind
        (fun d => generate_html_report [d]))
      = Except.error "KeyError: mrcr" := by
  decide

/-- C3 counterexample: on the zero-variance sample `[5, 5]`,
`scipy.stats.zscore` divides `0/0` and produces NaN (modelled `none`), so
the z-scores are not "exactly 0" as the claim states. -/
theorem C3_zero_variance_zscore_nan :
    zscoreSq [(5:ℚ), 5] 5 = none ∧ zscoreSq [(5:ℚ), 5] 5 ≠ some 0 := by
  decide

/-- C3 (amended): for a non-empty zero-variance sample the z-scores are NaN
rather than 0, but since every IEEE comparison with NaN is false, no point
is flagged as a candidate outlier and the returned mask is all-normal. -/
theorem C3_zero_variance_all_normal (data : List ℚ) (t : ℚ) (mcs : ℕ) (w : ℚ)
    (h1 : data ≠ []) (h2 : variance data = 0) :
    (∀ x ∈ data, isCandidate data t x = false) ∧
      (identify_outliers_hybrid data t mcs w).1 = List.replicate data.length true := by
  have hc : ∀ x ∈ data, isCandidate data t x = false := by
    intro x _
    simp [isCandidate, h2]
  refine ⟨hc, ?_⟩
  rw [mask_eq]
  apply map_eq_replicate_true
  intro x hx
  simp [isOutlierVal, hc x hx]

/-- C3 witness: the amended statement at the concrete zero-variance sample
`[4, 4, 4]`. -/
theorem C3_witness :
    (∀ x ∈ [(4:ℚ), 4, 4], isCandidate [(4:ℚ), 4, 4] 2 x = false) ∧
      (identify_outliers_hybrid [(4:ℚ), 4, 4] 2 1 0).1 = List.replicate 3 true :=
  C3_zero_variance_all_normal [(4:ℚ), 4, 4] 2 1 0 (by decide) (by decide)

/-- C4: whenever the cluster-rescue sweep examines a cursor position whose
window `[sorted[i], sorted[i] + cluster_width]` holds at least
`min_cluster_size` candidate values, every original-sample point whose value
lies in that window ends up classified normal — rescue is by value, not by
index. -/
theorem C4_cluster_window_rescued (data : List ℚ) (t : ℚ) (mcs : ℕ) (w : ℚ)
    (i : ℕ) (hi : i < (candidateValues data t).length)
    (hvis : i ∈ sweepVisited (candidateValues data t) mcs w
      (candidateValues data t).length 0)
    (hbig : mcs ≤ (windowAt (candidateValues data t) w
      ((candidateValues data t).get ⟨i, hi⟩)).length)
    (j : ℕ) (hj : j < data.length)
    (hval : data.get ⟨j, hj⟩ ∈ windowAt (candidateValues data t) w
      ((candidateValues data t).get ⟨i, hi⟩)) :
    (identify_outliers_hybrid data t mcs w).1[j]? = some true := by
  have hres : data.get ⟨j, hj⟩ ∈ rescuedValues data t mcs w :=
    visited_window_subset_rescued (candidateValues data t) mcs w _ 0 i hvis hi
      hbig _ hval
  rw [mask_eq, List.getElem?_map, List.getElem?_eq_getElem hj]
  rw [List.get_eq_getElem] at hres
  simp [isOutlierVal, hres]

/-- C4 witness: on `[0, 0, 0, 0, 100, 100]` with `z_threshold = 1`,
`min_cluster_size = 2`, `cluster_width = 0`, the two candidate values `100`
form a window of size 2 at cursor 0, and the point at index 4 (value `100`)
is rescued. -/
theorem C4_witness :
    (0 ∈ sweepVisited (candidateValues [(0:ℚ), 0, 0, 0, 100, 100] 1) 2 0
        (candidateValues [(0:ℚ), 0, 0, 0, 100, 100] 1).length 0) ∧
      (identify_outliers_hybrid [(0:ℚ), 0, 0, 0, 100, 100] 1 2 0).1[4]? = some true :=
  ⟨by decide,
    C4_cluster_window_rescued [(0:ℚ), 0, 0, 0, 100, 100] 1 2 0 0 (by decide)
      (by decide) (by decide) 4 (by decide) (by decide)⟩

/-- C5: when no point of a non-empty sample passes the z-score candidate
test, every point is classified normal and the valid range is
`(min(sample), max(sample))`. -/
theorem C5_no_candidates_all_normal (data : List ℚ) (t : ℚ) (mcs : ℕ) (w : ℚ)
    (h1 : data ≠ []) (h2 : ∀ x ∈ data, isCandidate data t x = false) :
    identify_outliers_hybrid data t mcs w
      = (List.replicate data.length true, (listMin data, listMax data)) := by
  rw [identify_eq]
  have hval : validData data t mcs w = data := by
    unfold validData
    rw [List.filter_eq_self]
    intro x hx
    simp [isOutlierVal, h2 x hx]
  rw [hval, if_pos (List.length_pos.mpr h1)]
  congr 1
  apply map_eq_replicate_true
  intro x hx
  simp [isOutlierVal, h2 x hx]

/-- C5 witness: on `[1, 2, 3]` with `z_threshold = 3` no point is a
candidate, and the classifier returns the all-true mask with range
`(1, 3)`. -/
theorem C5_witness :
    identify_outliers_hybrid [(1:ℚ), 2, 3] 3 2 1 = (List.replicate 3 true, (1, 3)) := by
  rw [C5_no_candidates_all_normal [(1:ℚ), 2, 3] 3 2 1 (by decide) (by decide)]
  decide

/-- C6 counterexample: at the valid input `[5, 5, 5, 5, 500]`
(`z_threshold=1`, `min_cluster_size=2`, `bucket_size=1`), the calculator
raises `ValueError` instead of returning an RCR value, so "the RCR value
returned by the calculator ... equals 0 whenever total_buckets equals 0" is
not realised: the `total_buckets = 0` case never returns at all. -/
theorem C6_degenerate_input_returns_no_rcr :
    calculate_rcr [(5:ℚ), 5, 5, 5, 500] 1 2 10 1 1
      = Except.error "ValueError: bins must be positive, when an integer" := by
  decide

/-- C6 (amended): whenever the calculator does return a result, the RCR lies
in `[0, 100]` and `total_buckets ≥ 1`; the `total_buckets = 0` case raises
`ValueError` inside `np.histogram` instead of returning `RCR = 0`. -/
theorem C6_rcr_bounds (data : List ℚ) (t : ℚ) (mcs : ℕ) (w bs : ℚ) (mbc : ℕ)
    (r : RCRResult) (h : calculate_rcr data t mcs w bs mbc = Except.ok r) :
    0 ≤ r.rcr ∧ r.rcr ≤ 100 ∧ 1 ≤ r.total_buckets := by
  simp only [calculate_rcr] at h
  by_cases hc : Int.ceil (((identify_outliers_hybrid data t mcs w).2.2
      - (identify_outliers_hybrid data t mcs w).2.1) / bs) < 1
  · rw [if_pos hc] at h
    exact absurd h (by simp)
  · rw [if_neg hc] at h
    injection h with h
    subst h
    set tb : ℤ := Int.ceil (((identify_outliers_hybrid data t mcs w).2.2
      - (identify_outliers_hybrid data t mcs w).2.1) / bs) with htb
    set n : ℕ := tb.toNat with hndef
    have hn1 : 1 ≤ n := by omega
    have hnq : (0:ℚ) < (n : ℚ) := by exact_mod_cast hn1
    set valid := maskedData data (identify_outliers_hybrid data t mcs w).1 with hvdef
    set filled := ((histogram valid n (identify_outliers_hybrid data t mcs w).2.1
      (identify_outliers_hybrid data t mcs w).2.2).filter
        (fun c => decide (mbc ≤ c))).length with hfdef
    have hfill : filled ≤ n := by
      calc filled ≤ (histogram valid n (identify_outliers_hybrid data t mcs w).2.1
          (identify_outliers_hybrid data t mcs w).2.2).length := List.length_filter_le _ _
      _ = n := by rw [histogram, List.length_map, List.length_range]
    have hfq : ((filled : ℚ)) ≤ (n : ℚ) := by exact_mod_cast hfill
    refine ⟨?_, ?_, hn1⟩
    · simp only [if_pos (by omega : 0 < n)]
      positivity
    · simp only [if_pos (by omega : 0 < n)]
      have hdiv : (filled : ℚ) / (n : ℚ) ≤ 1 := (div_le_one hnq).mpr hfq
      nlinarith

/-- C6 witness: a successful run on `[1, 2, 3]` whose returned result
satisfies the bounds. -/
theorem C6_witness :
    0 ≤ resultA.rcr ∧ resultA.rcr ≤ 100 ∧ 1 ≤ resultA.total_buckets :=
  C6_rcr_bounds [(1:ℚ), 2, 3] 3 2 1 1 1 resultA (by decide)

/-- C7: when the adjusted range has positive width strictly smaller than
`bucket_size`, the calculator returns `total_buckets = 1` and an RCR of 100
exactly when the single bucket's count reaches `min_bucket_count`, else 0. -/
theorem C7_single_bucket (data : List ℚ) (t : ℚ) (mcs : ℕ) (w bs : ℚ) (mbc : ℕ)
    (h1 : 0 < (identify_outliers_hybrid data t mcs w).2.2
      - (identify_outliers_hybrid data t mcs w).2.1)
    (h2 : (identify_outliers_hybrid data t mcs w).2.2
      - (identify_outliers_hybrid data t mcs w).2.1 < bs) :
    ∃ r : RCRResult, calculate_rcr data t mcs w bs mbc = Except.ok r ∧
      r.total_buckets = 1 ∧
      r.rcr = if mbc ≤ binCount
          (maskedData data (identify_outliers_hybrid data t mcs w).1)
          (identify_outliers_hybrid data t mcs w).2.1
          (identify_outliers_hybrid data t mcs w).2.2 1 0
        then 100 else 0 := by
  have hbs : 0 < bs := lt_trans h1 h2
  have hceil : Int.ceil (((identify_outliers_hybrid data t mcs w).2.2
      - (identify_outliers_hybrid data t mcs w).2.1) / bs) = 1 := by
    rw [Int.ceil_eq_iff]
    constructor
    · push_cast
      have := div_pos h1 hbs
      linarith
    · push_cast
      exact (div_le_one hbs).mpr (le_of_lt h2)
  simp only [calculate_rcr, hceil]
  rw [if_neg (by omega : ¬ (1:ℤ) < 1)]
  refine ⟨_, rfl, rfl, ?_⟩
  have hrange1 : List.range (1:ℤ).toNat = [0] := rfl
  simp only [histogram, hrange1, List.map_cons, List.map_nil]
  by_cases hcnt : mbc ≤ binCount
      (maskedData data (identify_outliers_hybrid data t mcs w).1)
      (identify_outliers_hybrid data t mcs w).2.1
      (identify_outliers_hybrid data t mcs w).2.2 1 0
  · rw [if_pos hcnt]
    rw [List.filter_cons_of_pos (by simpa using hcnt), List.filter_nil]
    norm_num
  · rw [if_neg hcnt]
    rw [List.filter_cons_of_neg (by simpa using hcnt), List.filter_nil]
    norm_num

/-- C7 witness: on `[1, 2, 3]` with no outliers, width 2 and
`bucket_size = 3`, the calculator returns a single bucket and RCR 100. -/
theorem C7_witness :
    ∃ r : RCRResult, calculate_rcr [(1:ℚ), 2, 3] 3 2 1 3 1 = Except.ok r ∧
      r.total_buckets = 1 ∧
      r.rcr = if 1 ≤ binCount
          (maskedData [(1:ℚ), 2, 3] (identify_outliers_hybrid [(1:ℚ), 2, 3] 3 2 1).1)
          (identify_outliers_hybrid [(1:ℚ), 2, 3] 3 2 1).2.1
          (identify_outliers_hybrid [(1:ℚ), 2, 3] 3 2 1).2.2 1 0
        then 100 else 0 :=
  C7_single_bucket [(1:ℚ), 2, 3] 3 2 1 3 1 (by decide) (by decide)

/-- C8: classification is value-consistent — two sample positions holding
equal values receive equal mask entries. -/
theorem C8_value_consistent (data : List ℚ) (t : ℚ) (mcs : ℕ) (w : ℚ)
    (i j : ℕ) (hi : i < data.length) (hj : j < data.length)
    (hval : data.get ⟨i, hi⟩ = data.get ⟨j, hj⟩) :
    (identify_outliers_hybrid data t mcs w).1[i]?
      = (identify_outliers_hybrid data t mcs w).1[j]? := by
  rw [mask_eq, List.getElem?_map, List.getElem?_map,
    List.getElem?_eq_getElem hi, List.getElem?_eq_getElem hj]
  rw [List.get_eq_getElem, List.get_eq_getElem] at hval
  rw [hval]

/-- C8 witness: both occurrences of the value 7 in `[7, 7]` receive the same
mask entry. -/
theorem C8_witness :
    (identify_outliers_hybrid [(7:ℚ), 7] 1 1 0).1[0]?
      = (identify_outliers_hybrid [(7:ℚ), 7] 1 1 0).1[1]? :=
  C8_value_consistent [(7:ℚ), 7] 1 1 0 0 1 (by decide) (by decide) (by decide)

/-- C9: the returned mask always has exactly the length of the sample. -/
theorem C9_mask_length (data : List ℚ) (t : ℚ) (mcs : ℕ) (w : ℚ) :
    (identify_outliers_hybrid data t mcs w).1.length = data.length :=
  identify_mask_length data t mcs w

/-- C10: when at least one point is normal and the bucket count is at least
1, the adjusted range bounds every normal point and sits inside the original
range, the per-bucket histogram counts sum to exactly the number of normal
points, and a point equal to `adjusted_max` is counted once, in the last
(right-closed) bucket. -/
theorem C10_histogram_partition (data : List ℚ) (t : ℚ) (mcs : ℕ) (w bs : ℚ)
    (m : List Bool) (amin amax : ℚ) (n : ℕ)
    (hid : identify_outliers_hybrid data t mcs w = (m, (amin, amax)))
    (hv : maskedData data m ≠ [])
    (hbs : 0 < bs)
    (hn : n = (Int.ceil ((amax - amin) / bs)).toNat)
    (hn1 : 1 ≤ Int.ceil ((amax - amin) / bs)) :
    (listMin data ≤ amin ∧ amax ≤ listMax data) ∧
      (∀ x ∈ maskedData data m, amin ≤ x ∧ x ≤ amax) ∧
      (histogram (maskedData data m) n amin amax).sum = (maskedData data m).length ∧
      inBin amin amax n (n - 1) amax = true ∧
      (∀ k, k + 1 < n → inBin amin amax n k amax = false) := by
  have hmask : m = data.map (fun x => !(isOutlierVal data t mcs w x)) :=
    (congrArg Prod.fst hid).symm.trans (mask_eq data t mcs w)
  have hvalid : maskedData data m = validData data t mcs w := by
    rw [hmask, maskedData_map]
    rfl
  have hne : validData data t mcs w ≠ [] := by
    rw [← hvalid]
    exact hv
  have hrange : (amin, amax)
      = (listMin (validData data t mcs w), listMax (validData data t mcs w)) := by
    have h2 := (congrArg Prod.snd hid).symm.trans (range_eq data t mcs w)
    rwa [if_pos (List.length_pos.mpr hne)] at h2
  have hamin : amin = listMin (validData data t mcs w) := congrArg Prod.fst hrange
  have hamax : amax = listMax (validData data t mcs w) := congrArg Prod.snd hrange
  have hmem_sub : ∀ x ∈ validData data t mcs w, x ∈ data := by
    intro x hx
    exact (List.mem_filter.mp hx).1
  have hbounds : ∀ x ∈ maskedData data m, amin ≤ x ∧ x ≤ amax := by
    intro x hx
    rw [hvalid] at hx
    rw [hamin, hamax]
    exact ⟨listMin_le_mem hx, le_listMax_mem hx⟩
  have hpos : (0:ℚ) < (amax - amin) / bs := by
    by_contra hcon
    push_neg at hcon
    have : Int.ceil ((amax - amin) / bs) ≤ (0:ℤ) := by
      rw [Int.ceil_le]
      push_cast
      exact hcon
    omega
  have hab : amin < amax := by
    rcases div_pos_iff.mp hpos with ⟨hnum, _⟩ | ⟨_, hden⟩
    · linarith
    · linarith
  have hnpos : 0 < n := by
    rw [hn]
    omega
  refine ⟨?_, hbounds, ?_, inBin_last hab hnpos, ?_⟩
  · constructor
    · exact listMin_le_mem (hmem_sub _ (hamin ▸ listMin_mem hne))
    · exact le_listMax_mem (hmem_sub _ (hamax ▸ listMax_mem hne))
  · exact histogram_sum (maskedData data m) amin amax n hab hnpos hbounds
  · intro k hk
    exact inBin_b_of_ne_last hab hk

/-- C10 witness: on `[1, 2, 3]` (all normal, range `(1, 3)`,
`bucket_size = 1`, two buckets) the histogram counts sum to 3 and the value
3 falls exactly in the last bucket. -/
theorem C10_witness :
    (listMin [(1:ℚ), 2, 3] ≤ 1 ∧ (3:ℚ) ≤ listMax [(1:ℚ), 2, 3]) ∧
      (∀ x ∈ maskedData [(1:ℚ), 2, 3] [true, true, true], (1:ℚ) ≤ x ∧ x ≤ 3) ∧
      (histogram (maskedData [(1:ℚ), 2, 3] [true, true, true]) 2 1 3).sum
        = (maskedData [(1:ℚ), 2, 3] [true, true, true]).length ∧
      inBin (1:ℚ) 3 2 (2 - 1) 3 = true ∧
      (∀ k, k + 1 < 2 → inBin (1:ℚ) 3 2 k 3 = false) :=
  C10_histogram_partition [(1:ℚ), 2, 3] 3 2 1 1 [true, true, true] 1 3 2
    (by decide) (by decide) (by decide) (by decide) (by decide)

end RCRJitter
